import Mathlib

/-!
Shallow embedding of the asynchronous HTTP load generator (`src/app.py`,
`src/hometech.py`) and proofs about its statistics aggregator, rate
scheduler, request dispatcher, reporter loop and configuration handling.

Latencies and timestamps are modelled as rationals; Python integers are
unbounded, so counters are natural numbers.
-/

namespace LoadGen

/-- The `Stats` aggregator state (`src/app.py`, class `Stats.__init__`):
four cumulative totals, four window counters and the window latency
sequence. The asyncio lock serialises the three operations, so each
operation is modelled as a pure state transformer. -/
structure Stats where
  sent_total : Nat
  done_total : Nat
  ok_total : Nat
  err_total : Nat
  window_sent : Nat
  window_done : Nat
  window_ok : Nat
  window_err : Nat
  window_latencies_ms : List ℚ
  deriving Repr, DecidableEq

/-- Fresh aggregator: all counters zero, empty latency window
(`Stats.__init__`). -/
def Stats.init : Stats :=
  { sent_total := 0, done_total := 0, ok_total := 0, err_total := 0,
    window_sent := 0, window_done := 0, window_ok := 0, window_err := 0,
    window_latencies_ms := [] }

/-- `Stats.on_sent` (`src/app.py` lines 22-25): increments `sent_total`
and `_window_sent`. -/
def Stats.on_sent (s : Stats) : Stats :=
  { s with sent_total := s.sent_total + 1, window_sent := s.window_sent + 1 }

/-- `Stats.on_result` (`src/app.py` lines 27-38): increments `done_total`
and `_window_done`; increments the ok pair or the err pair according to
`ok`; appends the latency to the window sequence when it is present. -/
def Stats.on_result (s : Stats) (ok : Bool) (latency_ms : Option ℚ) : Stats :=
  let s1 := { s with done_total := s.done_total + 1, window_done := s.window_done + 1 }
  let s2 :=
    if ok then
      { s1 with ok_total := s1.ok_total + 1, window_ok := s1.window_ok + 1 }
    else
      { s1 with err_total := s1.err_total + 1, window_err := s1.window_err + 1 }
  match latency_ms with
  | some l => { s2 with window_latencies_ms := s2.window_latencies_ms ++ [l] }
  | none => s2

/-- A snapshot as returned by `Stats.snapshot_and_reset_window`:
the drained window counters, the three percentile values and the three
cumulative totals placed in the dictionary. -/
structure Snapshot where
  sent : Nat
  done : Nat
  ok : Nat
  err : Nat
  p50_ms : ℚ
  p90_ms : ℚ
  p99_ms : ℚ
  tot_done : Nat
  tot_ok : Nat
  tot_err : Nat
  deriving Repr, DecidableEq

/-- The percentile expression `lat[int(p * len(lat))] if lat else 0.0`
(`src/app.py` lines 43-45), applied to the already sorted sequence:
index `⌊p·n⌋` truncated toward zero (`int` on a non-negative float),
default 0 when the window is empty. -/
def percentileAt (p : ℚ) (lat : List ℚ) : ℚ :=
  if lat.isEmpty then 0 else lat.getD (p * lat.length).floor.toNat 0

/-- `Stats.snapshot_and_reset_window` (`src/app.py` lines 40-63): sorts
the window latencies, builds the snapshot from the window counters, the
percentiles and the cumulative totals, then clears every window field. -/
def Stats.snapshot_and_reset_window (s : Stats) : Snapshot × Stats :=
  let lat := s.window_latencies_ms.insertionSort (· ≤ ·)
  let snap : Snapshot :=
    { sent := s.window_sent, done := s.window_done,
      ok := s.window_ok, err := s.window_err,
      p50_ms := percentileAt (50/100) lat,
      p90_ms := percentileAt (90/100) lat,
      p99_ms := percentileAt (99/100) lat,
      tot_done := s.done_total, tot_ok := s.ok_total, tot_err := s.err_total }
  ( snap,
    { s with
      window_sent := 0, window_done := 0, window_ok := 0, window_err := 0,
      window_latencies_ms := [] } )

/-- One aggregator operation, for reasoning about arbitrary interleaved
call sequences. -/
inductive StatsOp where
  | sent : StatsOp
  | result (ok : Bool) (latency_ms : Option ℚ) : StatsOp
  | snapshot : StatsOp
  deriving Repr, DecidableEq

/-- Apply one operation to the aggregator (snapshots discard the returned
value; only the state matters for the invariants). -/
def Stats.apply (s : Stats) : StatsOp → Stats
  | .sent => s.on_sent
  | .result ok l => s.on_result ok l
  | .snapshot => (s.snapshot_and_reset_window).2

/-- Apply a whole sequence of operations in order, starting from `s`. -/
def Stats.applyAll (s : Stats) : List StatsOp → Stats
  | [] => s
  | op :: ops => (s.apply op).applyAll ops

/-! ## Header parsing (`parse_headers`, `src/app.py` lines 147-154) -/

/-- The whitespace characters removed by the Python `str.strip()` calls in
`parse_headers` (the six ASCII whitespace characters). -/
def pyIsSpace (c : Char) : Bool :=
  c = ' ' || c = '\t' || c = '\n' || c = '\r' || c = '\x0b' || c = '\x0c'

/-- Python `str.strip()` on a character sequence: remove leading and
trailing whitespace. -/
def pyStrip (s : List Char) : List Char :=
  ((s.dropWhile pyIsSpace).reverse.dropWhile pyIsSpace).reverse

/-- Python `item.split(":", 1)` guarded by `":" in item`: `none` when the
entry holds no colon (the malformed case that `parse_headers` skips),
otherwise the part before the first colon and everything after it. -/
def splitFirstColon : List Char → Option (List Char × List Char)
  | [] => none
  | c :: rest =>
    if c = ':' then some ([], rest)
    else (splitFirstColon rest).map (fun p => (c :: p.1, p.2))

/-- Python dict assignment `d[k] = v`: overwrite the value in place when
the key is present, append a new entry otherwise. -/
def dictSet (d : List (List Char × List Char)) (k v : List Char) :
    List (List Char × List Char) :=
  if d.any (fun p => p.1 = k) then
    d.map (fun p => if p.1 = k then (k, v) else p)
  else d ++ [(k, v)]

/-- Python dict lookup `d.get(k)`. -/
def dictGet (d : List (List Char × List Char)) (k : List Char) :
    Option (List Char) :=
  (d.find? (fun p => p.1 = k)).map (fun p => p.2)

/-- `parse_headers` (`src/app.py` lines 147-154): fold over the
`--header` items, skipping entries without a colon and otherwise storing
the stripped value under the stripped name. -/
def parse_headers (header_items : List (List Char)) :
    List (List Char × List Char) :=
  header_items.foldl
    (fun headers item =>
      match splitFirstColon item with
      | none => headers
      | some (k, v) => dictSet headers (pyStrip k) (pyStrip v))
    []

/-- The well-formed entries of the input, each already split at its first
colon and stripped, in input order. -/
def wfEntries (header_items : List (List Char)) :
    List (List Char × List Char) :=
  header_items.filterMap
    (fun item => (splitFirstColon item).map (fun p => (pyStrip p.1, pyStrip p.2)))

/-! ## Rate scheduler window (`run_load`, `src/app.py` lines 112-137) -/

/-- One one-second window of the `run_load` pacing loop with `rps > 0`
(`src/app.py` lines 117-132): the loop body computes
`scheduled_at = second_base + i * spacing` with `spacing = 1/rps`,
selects `urls[rr % len(urls)]` and then increments the cursor, so slot
`i` reads cursor value `rr + i`; after the window the cursor is
`rr + rps`. Returns the issued `(scheduled_at, url)` pairs in issue
order together with the final cursor. -/
def run_load_window (rps : Nat) (urls : List String) (second_base : ℚ)
    (rr : Nat) : List (ℚ × String) × Nat :=
  let spacing : ℚ := 1 / (rps : ℚ)
  ( (List.range rps).map (fun (i : Nat) =>
      (second_base + (i : ℚ) * spacing, urls.getD ((rr + i) % urls.length) "")),
    rr + rps )

/-- Number of sends that target the list index `k` among the first `N`
sends of a run whose cursor starts at 0 over a list of length `L`: send
`n` targets index `n % L` (see `run_load_window`). -/
def sendsToTarget (N L k : Nat) : Nat :=
  ((List.range N).filter (fun n => n % L = k)).length

/-! ## Request dispatcher (`fetch`, `src/app.py` lines 66-79) -/

/-- How the request/response exchange inside the `try` of `fetch` ends:
a response whose body was fully read, an exception derived from
`Exception` (connection error, timeout, TLS failure, bad status is not
an exception - it yields `completed`), or `asyncio.CancelledError`,
which derives from `BaseException` but not from `Exception`. -/
inductive ExchangeResult where
  | completed (status : Nat)
  | raisedException
  | raisedCancelled
  deriving Repr, DecidableEq

/-- Result of one `fetch` call: the list of `ok` flags passed to
`stats.on_result`, in call order, and whether an exception escapes
`fetch` itself. -/
structure FetchRun where
  reports : List Bool
  raised : Bool
  deriving Repr, DecidableEq

/-- The `try/except/finally` of `fetch` (`src/app.py` lines 70-79).
The local variable `ok` is modelled as `Option Bool`, `none` meaning not
yet assigned. `ok` is assigned by the `try` body after a completed
exchange, or by the `except Exception` clause; `CancelledError` does not
derive from `Exception`, so that clause does not run for it and `ok`
stays unassigned while the cancellation propagates. The `finally` clause
evaluates `ok` to call `stats.on_result(ok, latency_ms)`: reading an
unassigned local raises `UnboundLocalError` there, so no report is made
and that error escapes instead. -/
def fetch (r : ExchangeResult) : FetchRun :=
  let ok : Option Bool :=
    match r with
    | .completed status => some (decide (200 ≤ status ∧ status < 400))
    | .raisedException => some false
    | .raisedCancelled => none
  let propagating : Bool :=
    match r with
    | .raisedCancelled => true
    | _ => false
  match ok with
  | some b => { reports := [b], raised := propagating }
  | none => { reports := [], raised := true }

/-! ## Reporter loop (`stats_printer`, `src/app.py` lines 82-90)

`stats_printer` is `while not stop_event.is_set(): await sleep(1.0);
snap = await snapshot_and_reset_window(); print(snap)`. Its only
suspension points are the sleep and the lock acquisition inside the
snapshot call; once the snapshot call resumes, the drain, the print and
the next loop condition check run without suspension, so they are one
atomic step here. `run_load` sets the stop event only while the printer
coroutine is parked at one of those two awaits; a stop issued before the
printer coroutine has run at all (for example `--duration 0`, whose loop
breaks before its first await) is modelled by starting the run with
`stopped := true`. -/

/-- Program points of the reporter coroutine. -/
inductive PrinterPC where
  | checkStop
  | sleeping
  | draining
  | finished
  deriving Repr, DecidableEq

/-- Reporter state: program point, the stop event, and one entry per
executed drain-and-print recording whether the stop event was already
set when that drain ran. -/
structure PrinterState where
  pc : PrinterPC
  stopped : Bool
  drains : List Bool
  deriving Repr, DecidableEq

/-- One step of the reporter coroutine: the loop condition check exits
when the stop event is set, the sleep completes, and the snapshot call
drains, prints and returns to the condition check. -/
def printerStep (s : PrinterState) : PrinterState :=
  match s.pc with
  | .checkStop =>
    if s.stopped then { s with pc := .finished } else { s with pc := .sleeping }
  | .sleeping => { s with pc := .draining }
  | .draining => { s with pc := .checkStop, drains := s.drains ++ [s.stopped] }
  | .finished => s

/-- A scheduler event: either the printer coroutine advances one step,
or `run_load` sets the stop event, which it can only do while the
printer is suspended at one of its two awaits. -/
inductive SchedStep where
  | printer
  | setStop
  deriving Repr, DecidableEq

/-- Apply one scheduler event. -/
def stepOn (s : PrinterState) : SchedStep → PrinterState
  | .printer => printerStep s
  | .setStop =>
    if s.pc = .sleeping ∨ s.pc = .draining then { s with stopped := true } else s

/-- Run a whole schedule of events. -/
def runSched (s : PrinterState) (steps : List SchedStep) : PrinterState :=
  steps.foldl stepOn s

/-! ## Configuration path of `main` (`src/app.py` lines 183-234) -/

/-- The hardcoded fallback target list of `main`
(`src/app.py` lines 195-211). -/
def defaultUrls : List String :=
  [ "https://batechdemo.in/yogathia_academy/gallery/",
    "https://batechdemo.in/hometech/",
    "https://batechdemo.in/ratchels/",
    "https://batechdemo.in/astoria/",
    "https://batechdemo.in/lkm/",
    "https://batechdemo.in/new_star_city/",
    "https://batechdemo.in/kgsv/",
    "https://batechdemo.in/lingam_oil/",
    "https://batechdemo.in/provahan/",
    "https://batechdemo.in/carportzone/",
    "https://batechdemo.in/agathiya/",
    "https://server99.batechnology.org:2087/evo/login",
    "http://mail.batechdemo.in/webmail/",
    "https://www.batechnology.org/",
    "https://batechdemo.in/posteit/" ]

/-- URL resolution in `main` (`src/app.py` lines 187-211): concatenate
the `--url` entries and the entries loaded from `--urls-file`; when the
combined list is empty, substitute `defaultUrls`. -/
def resolveUrls (cliUrls fileUrls : List String) : List String :=
  let urls := cliUrls ++ fileUrls
  if urls.isEmpty then defaultUrls else urls

/-- What `main` does after resolving the target list: either report a
configuration error and exit with a non-zero status, or call `run_load`
on a list. The `configError` constructor expresses the behaviour the
specification claims; the embedding of `main` never produces it. -/
inductive MainAction where
  | configError
  | runLoad (urls : List String)
  deriving Repr, DecidableEq

/-- `main` (`src/app.py` lines 183-234) restricted to target-list
handling: it unconditionally proceeds to `run_load` on the resolved
list. -/
def mainAction (cliUrls fileUrls : List String) : MainAction :=
  .runLoad (resolveUrls cliUrls fileUrls)

/-- The concurrency clamp applied by `main` when building the `run_load`
call (`src/app.py` line 224): `concurrency=max(1, int(args.concurrency))`. -/
def main_concurrency (cliValue : ℤ) : ℤ :=
  max 1 cliValue

/-- The admission-gate capacity chosen by `run_load`
(`src/app.py` line 96):
`asyncio.Semaphore(concurrency if concurrency > 0 else 1000000)`. -/
def run_load_semCapacity (concurrency : ℤ) : ℤ :=
  if concurrency > 0 then concurrency else 1000000

/-- The semaphore capacity actually in force for a given `--concurrency`
value arriving from the command line: `main` clamps it, then `run_load`
picks the capacity. -/
def cliSemCapacity (cliValue : ℤ) : ℤ :=
  run_load_semCapacity (main_concurrency cliValue)

/-! # Theorems -/

/-- C4 counterexample: `on_sent` is not limited to the window sent
counter - on the fresh aggregator it also changes the cumulative
`sent_total`, so aggregator state other than the window sent counter is
modified. -/
theorem on_sent_changes_sent_total :
    Stats.init.on_sent.sent_total ≠ Stats.init.sent_total ∧
    Stats.init.on_sent.window_sent = Stats.init.window_sent + 1 := by
  constructor
  · decide
  · rfl

/-- C4 amended: `on_sent` increments the window sent counter and the
cumulative `sent_total`, and leaves every other aggregator field
(the other window counters, the window latency sequence and the
cumulative `done_total`, `ok_total`, `err_total`) unchanged. -/
theorem on_sent_effect (s : Stats) :
    s.on_sent.window_sent = s.window_sent + 1 ∧
    s.on_sent.sent_total = s.sent_total + 1 ∧
    s.on_sent.done_total = s.done_total ∧
    s.on_sent.ok_total = s.ok_total ∧
    s.on_sent.err_total = s.err_total ∧
    s.on_sent.window_done = s.window_done ∧
    s.on_sent.window_ok = s.window_ok ∧
    s.on_sent.window_err = s.window_err ∧
    s.on_sent.window_latencies_ms = s.window_latencies_ms :=
  ⟨rfl, rfl, rfl, rfl, rfl, rfl, rfl, rfl, rfl⟩

/-- C8: after `snapshot_and_reset_window` the four window counters are
zero and the window latency sequence is empty, while the cumulative
totals (and also the cumulative `sent_total`) are unchanged. -/
theorem snapshot_and_reset_effect (s : Stats) :
    (s.snapshot_and_reset_window).2.window_sent = 0 ∧
    (s.snapshot_and_reset_window).2.window_done = 0 ∧
    (s.snapshot_and_reset_window).2.window_ok = 0 ∧
    (s.snapshot_and_reset_window).2.window_err = 0 ∧
    (s.snapshot_and_reset_window).2.window_latencies_ms = [] ∧
    (s.snapshot_and_reset_window).2.done_total = s.done_total ∧
    (s.snapshot_and_reset_window).2.ok_total = s.ok_total ∧
    (s.snapshot_and_reset_window).2.err_total = s.err_total ∧
    (s.snapshot_and_reset_window).2.sent_total = s.sent_total :=
  ⟨rfl, rfl, rfl, rfl, rfl, rfl, rfl, rfl, rfl⟩

/-- C2 counterexample: a `--concurrency` value of 0 does not reach the
very large finite bound - `main` clamps it with `max(1, ...)`, so the
semaphore capacity actually used is 1, not 1000000. -/
theorem cliSemCapacity_zero_is_one :
    cliSemCapacity 0 = 1 ∧ cliSemCapacity 0 ≠ 1000000 := by
  constructor
  · rfl
  · decide

/-- C2 amended: the effectively-unbounded capacity 1000000 is what
`run_load` uses for any non-positive `concurrency` argument, but `main`
clamps the command-line value with `max(1, ...)` (and an absent flag
defaults to 30000), so the capacity in force for a command-line value
`v` is `max 1 v` and the unbounded branch is unreachable from the
command line. -/
theorem semCapacity_amended :
    (∀ c : ℤ, c ≤ 0 → run_load_semCapacity c = 1000000) ∧
    (∀ v : ℤ, cliSemCapacity v = max 1 v) := by
  constructor
  · intro c hc
    unfold run_load_semCapacity
    rw [if_neg (by omega)]
  · intro v
    unfold cliSemCapacity main_concurrency run_load_semCapacity
    rw [if_pos]
    exact lt_of_lt_of_le one_pos (le_max_left 1 v)

/-- C2 witness: instantiating the amended statement at concrete
command-line values. -/
theorem semCapacity_amended_witness :
    run_load_semCapacity 0 = 1000000 ∧ cliSemCapacity 30000 = 30000 :=
  ⟨semCapacity_amended.1 0 (by decide),
   (semCapacity_amended.2 30000).trans (by decide)⟩

/-- C1 counterexample: with no `--url` entries and no `--urls-file`
entries, `main` does not report a configuration error - it substitutes
the hardcoded 15-entry default list and proceeds to `run_load`. -/
theorem main_empty_config_uses_defaults :
    mainAction [] [] = MainAction.runLoad defaultUrls ∧
    mainAction [] [] ≠ MainAction.configError ∧
    defaultUrls.length = 15 := by
  refine ⟨rfl, ?_, rfl⟩
  intro h
  exact MainAction.noConfusion h

/-- C1 amended: `main` never reports a configuration error for an empty
target list; for every configuration it proceeds to `run_load` with a
non-empty list (substituting the hardcoded default list when both user
sources are empty), so the engine never starts on an empty list. -/
theorem mainAction_nonempty (cliUrls fileUrls : List String) :
    ∃ urls, mainAction cliUrls fileUrls = MainAction.runLoad urls ∧ urls ≠ [] := by
  refine ⟨resolveUrls cliUrls fileUrls, rfl, ?_⟩
  unfold resolveUrls
  by_cases h : (cliUrls ++ fileUrls).isEmpty
  · rw [if_pos h]
    intro hd
    exact absurd (congrArg List.length hd) (by decide)
  · rw [if_neg h]
    intro hnil
    rw [hnil] at h
    exact h rfl

/-- C6 (code bug): the dispatcher reports exactly one outcome for a
completed exchange (ok iff the status is in [200, 400)) and for an
exception derived from `Exception`, but a cancellation is dropped: the
`except Exception` clause does not catch `CancelledError`, the local
`ok` is never assigned, and the `finally` clause raises
`UnboundLocalError` instead of calling `on_result`, so no outcome at all
is reported for that dispatch. -/
theorem fetch_report_paths :
    (fetch ExchangeResult.raisedCancelled).reports = [] ∧
    (fetch ExchangeResult.raisedCancelled).raised = true ∧
    (∀ status, (fetch (ExchangeResult.completed status)).reports =
        [decide (200 ≤ status ∧ status < 400)]) ∧
    (fetch ExchangeResult.raisedException).reports = [false] ∧
    (fetch ExchangeResult.raisedException).raised = false :=
  ⟨rfl, rfl, fun _ => rfl, rfl, rfl⟩

/-- The cumulative balance preserved by every aggregator operation. -/
lemma statsBalance_apply (s : Stats) (op : StatsOp)
    (h : s.done_total = s.ok_total + s.err_total) :
    (s.apply op).done_total = (s.apply op).ok_total + (s.apply op).err_total := by
  cases op with
  | sent => simpa [Stats.apply, Stats.on_sent] using h
  | result ok l =>
    cases ok <;> cases l <;>
      simp [Stats.apply, Stats.on_result] <;> omega
  | snapshot => simpa [Stats.apply, Stats.snapshot_and_reset_window] using h

/-- The balance holds after any operation sequence from a balanced
state. -/
lemma statsBalance_applyAll (ops : List StatsOp) :
    ∀ s : Stats, s.done_total = s.ok_total + s.err_total →
      (s.applyAll ops).done_total =
        (s.applyAll ops).ok_total + (s.applyAll ops).err_total := by
  induction ops with
  | nil => intro s h; exact h
  | cons op rest ih =>
    intro s h
    exact ih (s.apply op) (statsBalance_apply s op h)

/-- C7: starting from a fresh aggregator, after every sequence of
`on_sent`, `on_result` and `snapshot_and_reset_window` calls the
cumulative balance `done_total = ok_total + err_total` holds; each
`on_result` increments `done_total` and exactly one of `ok_total` or
`err_total`; and no operation decreases any cumulative total. -/
theorem stats_cumulative_invariant :
    (∀ ops : List StatsOp,
        (Stats.init.applyAll ops).done_total =
          (Stats.init.applyAll ops).ok_total + (Stats.init.applyAll ops).err_total) ∧
    (∀ (s : Stats) (ok : Bool) (l : Option ℚ),
        (s.on_result ok l).done_total = s.done_total + 1 ∧
        (s.on_result ok l).ok_total = s.ok_total + (if ok then 1 else 0) ∧
        (s.on_result ok l).err_total = s.err_total + (if ok then 0 else 1)) ∧
    (∀ (s : Stats) (op : StatsOp),
        s.done_total ≤ (s.apply op).done_total ∧
        s.ok_total ≤ (s.apply op).ok_total ∧
        s.err_total ≤ (s.apply op).err_total ∧
        s.sent_total ≤ (s.apply op).sent_total) := by
  refine ⟨fun ops => statsBalance_applyAll ops Stats.init rfl, ?_, ?_⟩
  · intro s ok l
    cases ok <;> cases l <;> simp [Stats.on_result]
  · intro s op
    cases op with
    | sent => simp [Stats.apply, Stats.on_sent]
    | result ok l =>
      cases ok <;> cases l <;> simp [Stats.apply, Stats.on_result]
    | snapshot => simp [Stats.apply, Stats.snapshot_and_reset_window]

/-- C3 counterexample: when the stop event is already set before the
reporter coroutine first runs (as happens with `--duration 0`, whose
scheduler loop breaks and sets the event before its first await), the
reporter exits at its first loop condition check and terminates without
performing any drain at all, so no final snapshot is emitted after the
stop signal. -/
theorem printer_stop_before_start_no_drain :
    runSched { pc := .checkStop, stopped := true, drains := [] } [.printer] =
      { pc := .finished, stopped := true, drains := [] } ∧
    ¬ true ∈ (runSched { pc := .checkStop, stopped := true, drains := [] }
        [.printer]).drains := by
  exact ⟨rfl, by decide⟩

/-- The reporter invariant is preserved by every scheduler event: once
the stop event is set, either a drain has already run with the stop
observed, or the reporter is still suspended before the drain of its
current iteration. -/
lemma printer_inv_step (s : PrinterState) (e : SchedStep)
    (h : s.stopped = true →
      (true ∈ s.drains ∨ s.pc = .sleeping ∨ s.pc = .draining)) :
    (stepOn s e).stopped = true →
      (true ∈ (stepOn s e).drains ∨ (stepOn s e).pc = .sleeping ∨
        (stepOn s e).pc = .draining) := by
  cases e with
  | printer =>
    cases hpc : s.pc with
    | checkStop =>
      by_cases hs : s.stopped = true
      · intro _
        rcases h hs with hd | hp | hp
        · simp only [stepOn, printerStep, hpc, hs, if_pos]
          exact Or.inl hd
        · rw [hpc] at hp; exact absurd hp (by decide)
        · rw [hpc] at hp; exact absurd hp (by decide)
      · simp only [stepOn, printerStep, hpc]
        rw [if_neg (by simpa using hs)]
        intro hs2
        exact absurd hs2 hs
    | sleeping =>
      intro _
      simp [stepOn, printerStep, hpc]
    | draining =>
      intro hs
      simp only [stepOn, printerStep, hpc] at hs ⊢
      exact Or.inl (by simp [hs])
    | finished =>
      intro hs
      simp only [stepOn, printerStep, hpc] at hs ⊢
      rcases h hs with hd | hp | hp
      · exact Or.inl hd
      · rw [hpc] at hp; exact absurd hp (by decide)
      · rw [hpc] at hp; exact absurd hp (by decide)
  | setStop =>
    by_cases hpc : s.pc = .sleeping ∨ s.pc = .draining
    · intro _
      simp only [stepOn, if_pos hpc]
      exact Or.inr hpc
    · simp only [stepOn, if_neg hpc]
      exact h

/-- C3 amended: provided the stop event is set while the reporter is
inside its loop (suspended at the sleep or at the aggregator lock - the
only points at which `run_load` can run and set it once the reporter has
started), the reporter performs at least one drain at or after the stop
signal before terminating, and the drained snapshot is printed in the
same atomic resumption. The invariant hypothesis states exactly that
situation; the previous counterexample shows the stop-before-start case
where it fails. -/
theorem printer_final_drain (steps : List SchedStep) (s : PrinterState)
    (hinv : s.stopped = true →
      (true ∈ s.drains ∨ s.pc = .sleeping ∨ s.pc = .draining))
    (hstop : (runSched s steps).stopped = true)
    (hdone : (runSched s steps).pc = .finished) :
    true ∈ (runSched s steps).drains := by
  induction steps generalizing s with
  | nil =>
    rcases hinv hstop with hd | hp | hp
    · exact hd
    · rw [show runSched s [] = s from rfl] at hdone
      rw [hdone] at hp
      exact absurd hp (by decide)
    · rw [show runSched s [] = s from rfl] at hdone
      rw [hdone] at hp
      exact absurd hp (by decide)
  | cons e rest ih =>
    exact ih (stepOn s e) (printer_inv_step s e hinv) hstop hdone

/-- C3 witness: a concrete schedule in which the stop event is set while
the reporter sleeps; the reporter then drains once more (observing the
stop) and terminates. -/
theorem printer_final_drain_witness :
    true ∈ (runSched { pc := .sleeping, stopped := true, drains := [] }
        [.printer, .printer, .printer]).drains :=
  printer_final_drain [.printer, .printer, .printer]
    { pc := .sleeping, stopped := true, drains := [] }
    (fun _ => Or.inr (Or.inl rfl)) (by decide) (by decide)

/-- Looking up a key in a cons cell of the dictionary. -/
lemma dictGet_cons (p : List Char × List Char)
    (d : List (List Char × List Char)) (name : List Char) :
    dictGet (p :: d) name = if p.1 = name then some p.2 else dictGet d name := by
  unfold dictGet
  by_cases h : p.1 = name
  · rw [List.find?_cons_of_pos _ (by simpa using h), if_pos h]
    rfl
  · rw [List.find?_cons_of_neg _ (by simpa using h), if_neg h]

/-- Updating entries of a different key does not change a lookup. -/
lemma dictGet_map_update_ne (d : List (List Char × List Char))
    (k v name : List Char) (hne : name ≠ k) :
    dictGet (d.map (fun p => if p.1 = k then (k, v) else p)) name =
      dictGet d name := by
  induction d with
  | nil => rfl
  | cons p rest ih =>
    rw [List.map_cons, dictGet_cons, dictGet_cons]
    by_cases hpk : p.1 = k
    · rw [if_pos hpk]
      have h1 : ¬ ((k, v).1 = name) := fun h => hne (h.symm)
      rw [if_neg h1, if_neg (fun h => hne (hpk ▸ h).symm), ih]
    · rw [if_neg hpk]
      by_cases hpn : p.1 = name
      · rw [if_pos hpn, if_pos hpn]
      · rw [if_neg hpn, if_neg hpn, ih]

/-- Lookup after an in-place overwrite of an existing key. -/
lemma dictGet_map_update_of_mem (d : List (List Char × List Char))
    (k v name : List Char) (hany : d.any (fun p => p.1 = k) = true) :
    dictGet (d.map (fun p => if p.1 = k then (k, v) else p)) name =
      if name = k then some v else dictGet d name := by
  induction d with
  | nil => exact absurd hany (by simp)
  | cons p rest ih =>
    rw [List.map_cons, dictGet_cons, dictGet_cons]
    by_cases hpk : p.1 = k
    · rw [if_pos hpk]
      by_cases hnk : name = k
      · rw [if_pos hnk]
        simp [hnk]
      · have h1 : ¬ ((k, v).1 = name) := fun h => hnk h.symm
        rw [if_neg h1, if_neg hnk, if_neg (fun h => hnk (hpk ▸ h).symm)]
        exact dictGet_map_update_ne rest k v name hnk
    · rw [if_neg hpk]
      have hrest : rest.any (fun p => p.1 = k) = true := by
        rcases List.any_eq_true.mp hany with ⟨q, hq, hqk⟩
        rcases List.mem_cons.mp hq with h | h
        · exact absurd (of_decide_eq_true (h ▸ hqk)) hpk
        · exact List.any_eq_true.mpr ⟨q, h, hqk⟩
      by_cases hpn : p.1 = name
      · have hnk : ¬ (name = k) := fun h => hpk (hpn.trans h)
        rw [if_pos hpn, if_neg hnk, if_pos hpn]
      · rw [if_neg hpn, if_neg hpn, ih hrest]

/-- Lookup after appending a fresh key at the end. -/
lemma dictGet_append_new (d : List (List Char × List Char))
    (k v name : List Char) (hany : d.any (fun p => p.1 = k) = false) :
    dictGet (d ++ [(k, v)]) name =
      if name = k then some v else dictGet d name := by
  induction d with
  | nil =>
    rw [List.nil_append, dictGet_cons]
    by_cases h : name = k
    · rw [if_pos h, if_pos (h ▸ rfl : (k, v).1 = name)]
    · rw [if_neg h, if_neg (fun hh : (k, v).1 = name => h hh.symm)]
  | cons p rest ih =>
    have hpk : ¬ (p.1 = k) := by
      intro h
      have h2 : (p :: rest).any (fun p => p.1 = k) = true :=
        List.any_eq_true.mpr ⟨p, List.mem_cons_self p rest, decide_eq_true h⟩
      rw [hany] at h2
      exact Bool.false_ne_true h2
    have hrest : rest.any (fun p => p.1 = k) = false := by
      rcases hr : rest.any (fun p => p.1 = k) with _ | _
      · rfl
      · rcases List.any_eq_true.mp hr with ⟨q, hq, hqk⟩
        have h2 : (p :: rest).any (fun p => p.1 = k) = true :=
          List.any_eq_true.mpr ⟨q, List.mem_cons_of_mem p hq, hqk⟩
        rw [hany] at h2
        exact absurd h2 Bool.false_ne_true
    rw [List.cons_append, dictGet_cons, dictGet_cons]
    by_cases hpn : p.1 = name
    · have hnk : ¬ (name = k) := fun h => hpk (hpn.trans h)
      rw [if_pos hpn, if_neg hnk, if_pos hpn]
    · rw [if_neg hpn, if_neg hpn, ih hrest]

/-- Lookup after a Python dict assignment. -/
lemma dictGet_dictSet (d : List (List Char × List Char)) (k v name : List Char) :
    dictGet (dictSet d k v) name = if name = k then some v else dictGet d name := by
  unfold dictSet
  rcases hany : d.any (fun p => p.1 = k) with _ | _
  · rw [if_neg (by simp [hany])]
    exact dictGet_append_new d k v name hany
  · rw [if_pos (by simp [hany])]
    exact dictGet_map_update_of_mem d k v name hany

/-- The `parse_headers` fold, generalized over the accumulator:
the lookup result is the value of the last well-formed occurrence among
the remaining items, falling back to the accumulator. -/
lemma parse_headers_foldl (header_items : List (List Char)) :
    ∀ (acc : List (List Char × List Char)) (name : List Char),
      dictGet (header_items.foldl
          (fun headers item =>
            match splitFirstColon item with
            | none => headers
            | some (k, v) => dictSet headers (pyStrip k) (pyStrip v)) acc) name =
        match (wfEntries header_items).reverse.find? (fun p => p.1 = name) with
        | some p => some p.2
        | none => dictGet acc name := by
  induction header_items with
  | nil => intro acc name; rfl
  | cons item rest ih =>
    intro acc name
    rw [List.foldl_cons]
    cases hsplit : splitFirstColon item with
    | none =>
      simp only [hsplit]
      rw [ih]
      have hwf : wfEntries (item :: rest) = wfEntries rest := by
        simp [wfEntries, List.filterMap_cons, hsplit]
      rw [hwf]
    | some kv =>
      obtain ⟨k, v⟩ := kv
      simp only [hsplit]
      rw [ih]
      have hwf : wfEntries (item :: rest) =
          (pyStrip k, pyStrip v) :: wfEntries rest := by
        simp [wfEntries, List.filterMap_cons, hsplit]
      rw [hwf, List.reverse_cons, List.find?_append]
      cases hfind : (wfEntries rest).reverse.find? (fun p => p.1 = name) with
      | some p => simp [hfind]
      | none =>
        simp only [hfind, Option.none_or]
        rw [dictGet_dictSet]
        by_cases hnk : name = pyStrip k
        · rw [if_pos hnk, List.find?_cons_of_pos _ (by simp [hnk])]
        · rw [if_neg hnk,
            List.find?_cons_of_neg _
              (by simp only [decide_eq_true_eq]; exact fun h => hnk h.symm)]
          rfl

/-- `splitFirstColon` returns the prefix before the first colon and the
rest: the prefix holds no colon and the item is their rejoining. -/
lemma splitFirstColon_sound : ∀ (item k v : List Char),
    splitFirstColon item = some (k, v) → item = k ++ ':' :: v ∧ ':' ∉ k := by
  intro item
  induction item with
  | nil => intro k v h; exact absurd h (by simp [splitFirstColon])
  | cons c rest ih =>
    intro k v h
    by_cases hc : c = ':'
    · subst hc
      unfold splitFirstColon at h
      rw [if_pos rfl] at h
      have hk : k = [] ∧ v = rest := by
        have := Option.some.inj h
        exact ⟨(Prod.mk.injEq _ _ _ _ ▸ this).1.symm,
               (Prod.mk.injEq _ _ _ _ ▸ this).2.symm⟩
      rw [hk.1, hk.2]
      exact ⟨rfl, by simp⟩
    · unfold splitFirstColon at h
      rw [if_neg hc] at h
      cases hrec : splitFirstColon rest with
      | none => rw [hrec] at h; exact absurd h (by simp)
      | some p =>
        rw [hrec, Option.map_some'] at h
        have hkv := Option.some.inj h
        have hk : c :: p.1 = k := (Prod.mk.injEq _ _ _ _ ▸ hkv).1
        have hv : p.2 = v := (Prod.mk.injEq _ _ _ _ ▸ hkv).2
        obtain ⟨h1, h2⟩ := ih p.1 p.2 (by rw [hrec])
        constructor
        · rw [← hk, ← hv, h1]
          rfl
        · rw [← hk]
          intro hmem
          rcases List.mem_cons.mp hmem with h3 | h3
          · exact hc h3.symm
          · exact h2 h3

/-- `splitFirstColon` fails exactly on the colon-free (malformed)
entries. -/
lemma splitFirstColon_none_iff : ∀ item : List Char,
    splitFirstColon item = none ↔ ':' ∉ item := by
  intro item
  induction item with
  | nil => simp [splitFirstColon]
  | cons c rest ih =>
    unfold splitFirstColon
    by_cases hc : c = ':'
    · subst hc
      rw [if_pos rfl]
      simp
    · rw [if_neg hc]
      constructor
      · intro h hmem
        have hrec : splitFirstColon rest = none := by
          cases hrec : splitFirstColon rest with
          | none => rfl
          | some p => rw [hrec] at h; exact absurd h (by simp)
        rcases List.mem_cons.mp hmem with h1 | h1
        · exact hc h1.symm
        · exact (ih.mp hrec) h1
      · intro hmem
        have h1 : ':' ∉ rest := fun h => hmem (List.mem_cons_of_mem _ h)
        rw [ih.mpr h1]
        rfl

/-- C10: `parse_headers` splits each well-formed entry at its first
colon and strips both sides; the resulting dictionary maps each header
name to the stripped value of the last well-formed occurrence of that
name (later entries overwrite earlier ones), and entries without a
colon are exactly the skipped ones. -/
theorem parse_headers_last_occurrence :
    (∀ item k v, splitFirstColon item = some (k, v) →
        item = k ++ ':' :: v ∧ ':' ∉ k) ∧
    (∀ item, splitFirstColon item = none ↔ ':' ∉ item) ∧
    (∀ (header_items : List (List Char)) (name : List Char),
        dictGet (parse_headers header_items) name =
          match (wfEntries header_items).reverse.find? (fun p => p.1 = name) with
          | some p => some p.2
          | none => none) := by
  refine ⟨splitFirstColon_sound, splitFirstColon_none_iff, ?_⟩
  intro header_items name
  rw [show parse_headers header_items = header_items.foldl
      (fun headers item =>
        match splitFirstColon item with
        | none => headers
        | some (k, v) => dictSet headers (pyStrip k) (pyStrip v)) [] from rfl]
  rw [parse_headers_foldl header_items [] name]
  rfl

/-- C10 witness: instantiating the hypothesized parts at concrete
entries. -/
theorem parse_headers_last_occurrence_witness :
    ([' ', 'A', ':', 'b'] = [' ', 'A'] ++ ':' :: ['b'] ∧ ':' ∉ [' ', 'A']) ∧
    (splitFirstColon ['x', 'y'] = none ↔ ':' ∉ ['x', 'y']) :=
  ⟨parse_headers_last_occurrence.1 [' ', 'A', ':', 'b'] [' ', 'A'] ['b'] (by decide),
   parse_headers_last_occurrence.2.1 ['x', 'y']⟩

/-- The percentile policy as the claim words it: sort the window latency
sequence ascending and report the element at index `floor(p * n)`
clamped to `n - 1`, with 0 for an empty window. Stated from the claim
wording, for comparison with the expression in the code. -/
def percentileSpec (p : ℚ) (lat : List ℚ) : ℚ :=
  let sortedLat := lat.insertionSort (· ≤ ·)
  if sortedLat.isEmpty then 0
  else sortedLat.getD (min (p * sortedLat.length).floor.toNat (sortedLat.length - 1)) 0

/-- For a proportion strictly below 1 the truncated index is already at
most `n - 1`, so the clamp of the claim never changes it and the
unclamped code expression agrees with the clamped policy. -/
lemma percentileAt_eq_clamped (p : ℚ) (hp0 : 0 ≤ p) (hp1 : p < 1) (l : List ℚ) :
    percentileAt p l =
      if l.isEmpty then 0
      else l.getD (min (p * l.length).floor.toNat (l.length - 1)) 0 := by
  unfold percentileAt
  by_cases he : l.isEmpty
  · rw [if_pos he, if_pos he]
  · rw [if_neg he, if_neg he]
    have hn : 0 < l.length := by
      cases l with
      | nil => exact absurd rfl he
      | cons a t => simp
    have hfl : ⌊p * (l.length : ℚ)⌋ < (l.length : ℤ) := by
      apply Int.floor_lt.mpr
      push_cast
      calc p * (l.length : ℚ) < 1 * (l.length : ℚ) := by
            apply mul_lt_mul_of_pos_right hp1
            exact_mod_cast hn
        _ = (l.length : ℚ) := one_mul _
    have hge : (0 : ℤ) ≤ ⌊p * (l.length : ℚ)⌋ :=
      Int.floor_nonneg.mpr (by positivity)
    have hh : ⌊p * (l.length : ℚ)⌋ = (p * (l.length : ℚ)).floor := rfl
    have hle : (p * (l.length : ℚ)).floor.toNat ≤ l.length - 1 := by omega
    rw [min_eq_left hle]

/-- C9: the snapshot reports each percentile p in {0.50, 0.90, 0.99} as
the element of the ascending-sorted window latency sequence at index
`floor(p * n)` clamped to `n - 1` (the code omits the clamp, which is
redundant for p < 1), the sorted sequence is a sorted permutation of
the window, and an empty window reports 0 for every percentile. -/
theorem snapshot_percentile_policy (s : Stats) :
    (s.snapshot_and_reset_window).1.p50_ms =
      percentileSpec (50/100) s.window_latencies_ms ∧
    (s.snapshot_and_reset_window).1.p90_ms =
      percentileSpec (90/100) s.window_latencies_ms ∧
    (s.snapshot_and_reset_window).1.p99_ms =
      percentileSpec (99/100) s.window_latencies_ms ∧
    (s.window_latencies_ms.insertionSort (· ≤ ·)).Sorted (· ≤ ·) ∧
    (s.window_latencies_ms.insertionSort (· ≤ ·)).Perm s.window_latencies_ms ∧
    (∀ p : ℚ, percentileAt p [] = 0) := by
  refine ⟨?_, ?_, ?_, List.sorted_insertionSort _ _,
    List.perm_insertionSort _ _, fun p => rfl⟩
  · show percentileAt (50/100) (s.window_latencies_ms.insertionSort (· ≤ ·)) = _
    rw [percentileAt_eq_clamped _ (by norm_num) (by norm_num)]
    rfl
  · show percentileAt (90/100) (s.window_latencies_ms.insertionSort (· ≤ ·)) = _
    rw [percentileAt_eq_clamped _ (by norm_num) (by norm_num)]
    rfl
  · show percentileAt (99/100) (s.window_latencies_ms.insertionSort (· ≤ ·)) = _
    rw [percentileAt_eq_clamped _ (by norm_num) (by norm_num)]
    rfl

/-- One more send appends its target check to the count. -/
lemma sendsToTarget_succ (N L k : Nat) :
    sendsToTarget (N + 1) L k =
      sendsToTarget N L k + (if N % L = k then 1 else 0) := by
  unfold sendsToTarget
  rw [List.range_succ, List.filter_append, List.length_append]
  congr 1
  by_cases h : N % L = k
  · rw [if_pos h]
    simp [List.filter, h]
  · rw [if_neg h]
    simp [List.filter, h]

/-- Exact distribution of round-robin sends: target `k < L` receives
`N / L` sends, plus one more when `k` falls inside the final partial
cycle. -/
lemma sendsToTarget_formula (N L k : Nat) (hL : 0 < L) (hk : k < L) :
    sendsToTarget N L k = N / L + (if k < N % L then 1 else 0) := by
  induction N with
  | zero => simp [sendsToTarget]
  | succ n ih =>
    rw [sendsToTarget_succ, ih]
    by_cases hdvd : L ∣ n + 1
    · have h2 : (n + 1) / L = n / L + 1 := by
        rw [Nat.succ_div, if_pos hdvd]
      have h1 : (n + 1) % L = 0 := Nat.dvd_iff_mod_eq_zero.mp hdvd
      have heq : n % L = L - 1 := by
        have hd := Nat.div_add_mod n L
        have hd2 := Nat.div_add_mod (n + 1) L
        rw [h2, h1] at hd2
        have hx : L * (n / L + 1) = L * (n / L) + L := by ring
        rw [hx] at hd2
        have hm : n % L < L := Nat.mod_lt _ hL
        generalize L * (n / L) = a at hd hd2
        omega
      rw [h1, h2, heq]
      split_ifs <;> omega
    · have h2 : (n + 1) / L = n / L := by
        rw [Nat.succ_div, if_neg hdvd]
        rfl
      have h1 : (n + 1) % L = n % L + 1 := by
        have hd := Nat.div_add_mod n L
        have hd2 := Nat.div_add_mod (n + 1) L
        rw [h2] at hd2
        generalize L * (n / L) = a at hd hd2
        omega
      rw [h1, h2]
      split_ifs <;> omega

/-- C5: for target rate R > 0, a window issues exactly R scheduled
sends; the i-th send (0-based) carries target timestamp
`second_base + i * (1/R)` and targets the URL at index
`(rr + i) mod L`, the shared cursor having been incremented exactly
once per send (final cursor `rr + R`); the selected index is always in
bounds; and over the first N sends of a fresh run each target index
`k < L` receives between `N / L` and `N / L + 1` sends (the rounding
tolerance of 1). -/
theorem run_load_window_spec (rps : Nat) (urls : List String) (second_base : ℚ)
    (rr : Nat) (hr : 0 < rps) (hu : urls ≠ []) :
    (run_load_window rps urls second_base rr).1.length = rps ∧
    (∀ i, i < rps →
        (run_load_window rps urls second_base rr).1.getD i (0, "") =
          (second_base + (i : ℚ) * (1 / (rps : ℚ)),
            urls.getD ((rr + i) % urls.length) "")) ∧
    (∀ i, i < rps → (rr + i) % urls.length < urls.length) ∧
    (run_load_window rps urls second_base rr).2 = rr + rps ∧
    (∀ N k, k < urls.length →
        N / urls.length ≤ sendsToTarget N urls.length k ∧
        sendsToTarget N urls.length k ≤ N / urls.length + 1) := by
  have hL : 0 < urls.length := List.length_pos.mpr hu
  refine ⟨by simp [run_load_window], ?_, ?_, rfl, ?_⟩
  · intro i hi
    unfold run_load_window
    rw [List.getD_eq_getElem?_getD, List.getElem?_map, List.getElem?_range hi]
    rfl
  · intro i _
    exact Nat.mod_lt _ hL
  · intro N k hk
    rw [sendsToTarget_formula N urls.length k hL hk]
    split_ifs <;> omega

/-- C5 witness: the scenario of the specification (R = 2, two targets,
one window starting at 0 with a fresh cursor): two sends, the second at
timestamp 1/2 targeting the second URL, and the distribution bound at
N = 10. -/
theorem run_load_window_spec_witness :
    (run_load_window 2 ["a", "b"] 0 0).1.length = 2 ∧
    (run_load_window 2 ["a", "b"] 0 0).1.getD 1 (0, "") =
      (0 + ((1 : Nat) : ℚ) * (1 / ((2 : Nat) : ℚ)),
        ["a", "b"].getD ((0 + 1) % ["a", "b"].length) "") ∧
    sendsToTarget 10 2 0 ≤ 10 / 2 + 1 :=
  ⟨(run_load_window_spec 2 ["a", "b"] 0 0 (by decide) (by decide)).1,
   (run_load_window_spec 2 ["a", "b"] 0 0 (by decide) (by decide)).2.1 1
     (by decide),
   ((run_load_window_spec 2 ["a", "b"] 0 0 (by decide) (by decide)).2.2.2.2 10 0
     (by decide)).2⟩

end LoadGen
